import Mathlib

/-!
Verification of the ProbabilityTheory repository: a shallow embedding of
its three scripts (a binomial mass-function plotter, a batch Central Limit
Theorem demonstrator, and an interactive Central Limit Theorem
demonstrator) together with theorems about the embedded definitions.

Floating-point values are modelled by exact rationals (for sampled data and
probabilities) and by real numbers (for the square-root formulas of the
theoretical normal parameters).  The numpy uniform random generator is
modelled by an arbitrary stream `u : ℕ → ℚ` of draws together with a
position into the stream, mirroring the global generator state.
-/

namespace Binomial

/-- Hardcoded success probability of src/BinomialDistribution/main.py: `p = 0.5`. -/
def p : ℚ := 1 / 2

/-- Hardcoded trial count of src/BinomialDistribution/main.py: `n = 1000`. -/
def n : ℕ := 1000

/-- `k_values = list(range(n + 1))`, parametrised by the trial count. -/
def k_values (n : ℕ) : List ℕ := List.range (n + 1)

/-- `probs = [math.comb(n, k) * p**k * (1 - p) ** (n - k) for k in k_values]`,
parametrised by the module-level `n` and `p`. -/
def probs (n : ℕ) (p : ℚ) : List ℚ :=
  (k_values n).map (fun k => (n.choose k : ℚ) * p ^ k * (1 - p) ^ (n - k))

/-- The same module-level computation with the trial count as a Python `int`
(an arbitrary integer): `range(n + 1)` is empty when `n + 1 ≤ 0`, so the
comprehension produces `[]` for negative `n` and `math.comb` is never
reached.  No branch of the script validates `n` or `p`. -/
def probsZ (n : ℤ) (p : ℚ) : List ℚ :=
  (List.range (n + 1).toNat).map (fun k =>
    ((n + 1).toNat - 1).choose k * p ^ k * (1 - p) ^ (((n + 1).toNat - 1) - k))

lemma probs_length (n : ℕ) (p : ℚ) : (probs n p).length = n + 1 := by
  simp [probs, k_values]

lemma probsZ_ofNat (m : ℕ) (p : ℚ) : probsZ (m : ℤ) p = probs m p := by
  have h : ((m : ℤ) + 1).toNat = m + 1 := by omega
  simp [probsZ, probs, k_values, h]

lemma probs_getD (n : ℕ) (p : ℚ) (k : ℕ) (h : k ≤ n) :
    (probs n p).getD k 0 = (n.choose k : ℚ) * p ^ k * (1 - p) ^ (n - k) := by
  have hk : k < ((k_values n).map
      (fun k => (n.choose k : ℚ) * p ^ k * (1 - p) ^ (n - k))).length := by
    simpa [k_values] using Nat.lt_succ_of_le h
  rw [probs, List.getD_eq_getElem _ _ hk]
  simp [k_values]

lemma sum_map_range (f : ℕ → ℚ) : ∀ m : ℕ,
    ((List.range m).map f).sum = ∑ i ∈ Finset.range m, f i
  | 0 => by simp
  | m + 1 => by
    rw [List.range_succ, Finset.sum_range_succ, List.map_append, List.sum_append,
      sum_map_range f m]
    simp

end Binomial

namespace CLT

/-- `np.mean(samples)`: the arithmetic mean of a list of draws (over exact
rationals; the Lean convention `x / 0 = 0` is only reachable for an empty
list, which the scripts never produce since every sample size is `≥ 1`). -/
def npMean (xs : List ℚ) : ℚ := xs.sum / xs.length

/-- `np.random.uniform(a, b, n)`: `n` consecutive draws from the modelled
generator stream `u`, starting at stream position `pos`. -/
def uniformDraw (u : ℕ → ℚ) (pos n : ℕ) : List ℚ :=
  (List.range n).map fun i => u (pos + i)

/-- The mutable state of `class InteractiveCLT` in
src/CentralLimitTheorem/interactive_clt.py: the current sample size, the
constructor-fixed number of samples per click, and the accumulated list
`self.sample_means`.  The fields `a`, `b`, `uniform_mean`, `uniform_std`
are constants (0, 1, 1/2, 1/√12) and are modelled separately. -/
structure InteractiveCLT where
  sample_size : ℕ
  samples_per_click : ℕ
  sample_means : List ℚ
deriving DecidableEq

/-- The state built by `main()`: `InteractiveCLT(sample_size=30,
samples_per_click=5)` with an empty `sample_means` list. -/
def init : InteractiveCLT :=
  { sample_size := 30, samples_per_click := 5, sample_means := [] }

/-- `InteractiveCLT.take_samples(num_samples)`: the loop that draws
`sample_size` uniform values and appends their mean, `num` times.  The
stream position is threaded through and returned, mirroring the global
numpy generator state. -/
def take_samples (u : ℕ → ℚ) : ℕ → InteractiveCLT → ℕ → InteractiveCLT × ℕ
  | 0, s, pos => (s, pos)
  | num + 1, s, pos =>
    take_samples u num
      { s with sample_means :=
          s.sample_means ++ [npMean (uniformDraw u pos s.sample_size)] }
      (pos + s.sample_size)

/-- `InteractiveCLT.on_sample_click`: `take_samples(samples_per_click)`
followed by `update_plot()`, which reads but never writes the state. -/
def on_sample_click (u : ℕ → ℚ) (s : InteractiveCLT) (pos : ℕ) :
    InteractiveCLT × ℕ :=
  take_samples u s.samples_per_click s pos

/-- `InteractiveCLT.on_sample10_click`: `take_samples(samples_per_click * 10)`
followed by `update_plot()`. -/
def on_sample10_click (u : ℕ → ℚ) (s : InteractiveCLT) (pos : ℕ) :
    InteractiveCLT × ℕ :=
  take_samples u (s.samples_per_click * 10) s pos

/-- `InteractiveCLT.on_reset_click`: `self.sample_means = []` followed by
`update_plot()`. -/
def on_reset_click (s : InteractiveCLT) : InteractiveCLT :=
  { s with sample_means := [] }

/-- `InteractiveCLT.on_n_change(val)`: `self.sample_size = int(val)` and
`self.sample_means = []`, followed by `update_plot()`. -/
def on_n_change (s : InteractiveCLT) (val : ℕ) : InteractiveCLT :=
  { s with sample_size := val, sample_means := [] }

/-- `self.uniform_mean = (self.a + self.b) / 2` of the interactive script,
with `self.a, self.b = 0, 1`. -/
noncomputable def uniform_mean : ℝ := (0 + 1) / 2

/-- `self.uniform_std = (self.b - self.a) / np.sqrt(12)` of the interactive
script, with `self.a, self.b = 0, 1`. -/
noncomputable def uniform_std : ℝ := (1 - 0) / Real.sqrt 12

/-- `theoretical_std = self.uniform_std / np.sqrt(self.sample_size)` computed
in `InteractiveCLT.update_plot`. -/
noncomputable def theoretical_std (sample_size : ℕ) : ℝ :=
  uniform_std / Real.sqrt sample_size

/-- The UI events of the interactive demonstrator: the two sample buttons
generalised to `sample k` (the buttons fire `k = samples_per_click` and
`k = samples_per_click * 10`), the reset button, and the sample-size
slider. -/
inductive Event where
  | sample (k : ℕ)
  | reset
  | set_sample_size (val : ℕ)
deriving DecidableEq

/-- The slider constrains its value to the integer range `[1, 100]`; for the
invariant only the lower bound matters.  `sample` and `reset` carry no
constrained data. -/
def validEvent : Event → Bool
  | .set_sample_size v => decide (1 ≤ v)
  | _ => true

/-- One UI event dispatched to its handler. -/
def step (u : ℕ → ℚ) : InteractiveCLT × ℕ → Event → InteractiveCLT × ℕ
  | (s, pos), .sample k => take_samples u k s pos
  | (s, pos), .reset => (on_reset_click s, pos)
  | (s, pos), .set_sample_size v => (on_n_change s v, pos)

/-- A sequence of UI events dispatched in order, as the single-threaded
matplotlib event loop does. -/
def run (u : ℕ → ℚ) : InteractiveCLT × ℕ → List Event → InteractiveCLT × ℕ
  | sp, [] => sp
  | sp, e :: es => run u (step u sp e) es

lemma take_samples_append (u : ℕ → ℚ) : ∀ (k : ℕ) (s : InteractiveCLT) (pos : ℕ),
    ∃ t : List ℚ, t.length = k ∧
      (take_samples u k s pos).1 =
        { s with sample_means := s.sample_means ++ t }
  | 0, s, pos => ⟨[], rfl, by simp [take_samples]⟩
  | k + 1, s, pos => by
    obtain ⟨t, ht, hs⟩ := take_samples_append u k
      { s with sample_means :=
          s.sample_means ++ [npMean (uniformDraw u pos s.sample_size)] }
      (pos + s.sample_size)
    exact ⟨npMean (uniformDraw u pos s.sample_size) :: t, by simp [ht],
      by simpa [take_samples, List.append_assoc] using hs⟩

lemma npMean_mem_unit (xs : List ℚ) (hne : xs ≠ [])
    (hb : ∀ x ∈ xs, 0 ≤ x ∧ x ≤ 1) : 0 ≤ npMean xs ∧ npMean xs ≤ 1 := by
  have hlen : 0 < (xs.length : ℚ) := by
    have := List.length_pos.2 hne
    exact_mod_cast this
  have hsum0 : 0 ≤ xs.sum := List.sum_nonneg fun x hx => (hb x hx).1
  have hsum1 : xs.sum ≤ (xs.length : ℚ) := by
    have := List.sum_le_card_nsmul xs 1 fun x hx => (hb x hx).2
    simpa using this
  exact ⟨div_nonneg hsum0 hlen.le, (div_le_one hlen).2 hsum1⟩

lemma uniformDraw_mem_unit (u : ℕ → ℚ) (hu : ∀ i, 0 ≤ u i ∧ u i ≤ 1)
    (pos n : ℕ) : ∀ x ∈ uniformDraw u pos n, 0 ≤ x ∧ x ≤ 1 := by
  intro x hx
  obtain ⟨i, _, rfl⟩ := List.mem_map.1 hx
  exact hu _

lemma uniformDraw_ne_nil (u : ℕ → ℚ) (pos n : ℕ) (hn : 1 ≤ n) :
    uniformDraw u pos n ≠ [] := by
  have : (uniformDraw u pos n).length = n := by simp [uniformDraw]
  intro hnil
  rw [hnil] at this
  simp at this
  omega

lemma take_samples_invariant (u : ℕ → ℚ) (hu : ∀ i, 0 ≤ u i ∧ u i ≤ 1) :
    ∀ (k : ℕ) (s : InteractiveCLT) (pos : ℕ),
    1 ≤ s.sample_size → (∀ x ∈ s.sample_means, 0 ≤ x ∧ x ≤ 1) →
    1 ≤ (take_samples u k s pos).1.sample_size ∧
      ∀ x ∈ (take_samples u k s pos).1.sample_means, 0 ≤ x ∧ x ≤ 1
  | 0, s, pos => fun hn hm => ⟨hn, hm⟩
  | k + 1, s, pos => by
    intro hn hm
    refine take_samples_invariant u hu k _ (pos + s.sample_size) hn ?_
    intro x hx
    rcases List.mem_append.1 hx with hx | hx
    · exact hm x hx
    · have hx' : x = npMean (uniformDraw u pos s.sample_size) := by
        simpa using hx
      subst hx'
      exact npMean_mem_unit _ (uniformDraw_ne_nil u pos s.sample_size hn)
        (uniformDraw_mem_unit u hu pos s.sample_size)

lemma run_invariant (u : ℕ → ℚ) (hu : ∀ i, 0 ≤ u i ∧ u i ≤ 1) :
    ∀ (evs : List Event) (sp : InteractiveCLT × ℕ),
    (∀ e ∈ evs, validEvent e = true) →
    1 ≤ sp.1.sample_size → (∀ x ∈ sp.1.sample_means, 0 ≤ x ∧ x ≤ 1) →
    1 ≤ (run u sp evs).1.sample_size ∧
      ∀ x ∈ (run u sp evs).1.sample_means, 0 ≤ x ∧ x ≤ 1
  | [], sp => fun _ hn hm => ⟨hn, hm⟩
  | e :: es, sp => by
    intro hevs hn hm
    have hes : ∀ e ∈ es, validEvent e = true := fun e he => hevs e (by simp [he])
    obtain ⟨s, pos⟩ := sp
    have hstep : 1 ≤ (step u (s, pos) e).1.sample_size ∧
        ∀ x ∈ (step u (s, pos) e).1.sample_means, 0 ≤ x ∧ x ≤ 1 := by
      cases e with
      | sample k => exact take_samples_invariant u hu k s pos hn hm
      | reset => exact ⟨hn, by intro x hx; simp [step, on_reset_click] at hx⟩
      | set_sample_size v =>
        refine ⟨?_, by intro x hx; simp [step, on_n_change] at hx⟩
        have := hevs (Event.set_sample_size v) (by simp)
        simpa [step, validEvent, on_n_change] using this
    exact run_invariant u hu es (step u (s, pos) e) hes hstep.1 hstep.2

end CLT

namespace BatchCLT

/-- `a, b = 0, 1` in `demonstrate_clt` of src/CentralLimitTheorem/main.py. -/
def a : ℝ := 0

/-- `a, b = 0, 1` in `demonstrate_clt` of src/CentralLimitTheorem/main.py. -/
def b : ℝ := 1

/-- `uniform_mean = (a + b) / 2`. -/
noncomputable def uniform_mean : ℝ := (a + b) / 2

/-- `uniform_std = (b - a) / np.sqrt(12)`. -/
noncomputable def uniform_std : ℝ := (b - a) / Real.sqrt 12

/-- `theoretical_std = uniform_std / np.sqrt(n)` inside the loop body of
`demonstrate_clt`. -/
noncomputable def theoretical_std (n : ℕ) : ℝ := uniform_std / Real.sqrt n

/-- The inner experiment loop of `demonstrate_clt` for one sample size `n`:
`num_experiments` times, draw `n` uniform values and append their mean to
`sample_means`.  Arguments are the experiment count and the generator
stream position. -/
def sample_means (u : ℕ → ℚ) (n : ℕ) : ℕ → ℕ → List ℚ
  | 0, _ => []
  | E + 1, pos => CLT.npMean (CLT.uniformDraw u pos n) :: sample_means u n E (pos + n)

lemma sample_means_length (u : ℕ → ℚ) (n : ℕ) :
    ∀ (E pos : ℕ), (sample_means u n E pos).length = E
  | 0, _ => rfl
  | E + 1, pos => by simp [sample_means, sample_means_length u n E]

lemma sample_means_getD (u : ℕ → ℚ) (n : ℕ) :
    ∀ (E i pos : ℕ), i < E →
    (sample_means u n E pos).getD i 0 = CLT.npMean (CLT.uniformDraw u (pos + i * n) n)
  | 0, i, pos => by omega
  | E + 1, 0, pos => fun _ => by simp [sample_means]
  | E + 1, i + 1, pos => fun h => by
    rw [sample_means, List.getD_cons_succ, sample_means_getD u n E i (pos + n) (by omega)]
    ring_nf

end BatchCLT

/-- Claim C1: for every non-negative integer `n` and rational `p` in the unit
interval (the theorem needs no range restriction on `p`), the binomial
plotter produces, for each `k = 0..n` in order, the probability
`C(n,k) * p^k * (1-p)^(n-k)`: the list `probs` has length `n + 1` and its
`k`-th entry is the closed-form combinatorial formula. -/
theorem binomial_probs_entries (n : ℕ) (p : ℚ) (k : ℕ) (h : k ≤ n) :
    (Binomial.probs n p).length = n + 1 ∧
    (Binomial.probs n p).getD k 0 = (n.choose k : ℚ) * p ^ k * (1 - p) ^ (n - k) :=
  ⟨Binomial.probs_length n p, Binomial.probs_getD n p k h⟩

/-- Witness for C1 at `n = 2`, `p = 1/3`, `k = 1`. -/
theorem binomial_probs_entries_witness :
    (1 : ℕ) ≤ 2 ∧
    ((Binomial.probs 2 (1/3)).length = 2 + 1 ∧
      (Binomial.probs 2 (1/3)).getD 1 0 =
        ((2 : ℕ).choose 1 : ℚ) * (1/3) ^ 1 * (1 - 1/3) ^ (2 - 1)) :=
  ⟨by decide, binomial_probs_entries 2 (1/3) 1 (by decide)⟩

/-- Claim C2: over exact rational arithmetic, the binomial probabilities
computed by the plotter sum to exactly 1, for every `n` and every rational
`p` (in particular for `p` in the unit interval). -/
theorem binomial_probs_sum_one (n : ℕ) (p : ℚ) : (Binomial.probs n p).sum = 1 := by
  calc (Binomial.probs n p).sum
      = ∑ k ∈ Finset.range (n + 1), (n.choose k : ℚ) * p ^ k * (1 - p) ^ (n - k) :=
        Binomial.sum_map_range _ _
    _ = (p + (1 - p)) ^ n := by
        rw [add_pow]
        exact Finset.sum_congr rfl fun k _ => by ring
    _ = 1 := by norm_num

/-- Counterexample to claim C3: at the invalid parameters `n = 1`, `p = 2`
(`p` outside the unit interval) the module-level computation does not fail
with any `InvalidParameter` condition; it produces the two-element
"probability" sequence `[-1, 2]`. -/
theorem binomial_no_validation_counterexample :
    ¬ ((2 : ℚ) ≤ 1) ∧ Binomial.probsZ 1 2 = [-1, 2] := by
  constructor
  · norm_num
  · rw [show (1 : ℤ) = ((1 : ℕ) : ℤ) from rfl, Binomial.probsZ_ofNat]
    norm_num [Binomial.probs, Binomial.k_values, List.range_succ]

/-- Claim C3 amended: the binomial script performs no parameter validation at
all: for every integer `n` (including negative ones) and every rational `p`
(including `p` outside the unit interval) the module-level computation
produces a list of length `max (n + 1) 0` — empty for negative `n`, and
populated by the raw formula otherwise — and never raises any condition. -/
theorem binomial_no_validation (n : ℤ) (p : ℚ) :
    (Binomial.probsZ n p).length = (n + 1).toNat := by
  simp [Binomial.probsZ]

/-- Claim C9: for the plotter's hardcoded parameters `n = 1000`, `p = 0.5`,
the probability sequence is symmetric around `k = 500` and attains its
maximum at `k = 500`. -/
theorem binomial_symmetric_mode (k : ℕ) (h : k ≤ 1000) :
    (Binomial.probs Binomial.n Binomial.p).getD k 0 =
      (Binomial.probs Binomial.n Binomial.p).getD (1000 - k) 0 ∧
    (Binomial.probs Binomial.n Binomial.p).getD k 0 ≤
      (Binomial.probs Binomial.n Binomial.p).getD 500 0 := by
  have hp : (1 : ℚ) - Binomial.p = Binomial.p := by
    rw [Binomial.p]; norm_num
  have hval : ∀ j : ℕ, j ≤ 1000 →
      (Binomial.probs Binomial.n Binomial.p).getD j 0 =
        ((1000 : ℕ).choose j : ℚ) * Binomial.p ^ 1000 := by
    intro j hj
    rw [show Binomial.n = 1000 from rfl, Binomial.probs_getD 1000 _ j hj, hp,
      mul_assoc, ← pow_add, Nat.add_sub_cancel' hj]
  have hk' : 1000 - k ≤ 1000 := Nat.sub_le _ _
  constructor
  · rw [hval k h, hval (1000 - k) hk', Nat.choose_symm h]
  · rw [hval k h, hval 500 (by norm_num)]
    have hmid : (1000 : ℕ).choose k ≤ (1000 : ℕ).choose 500 := by
      simpa using Nat.choose_le_middle k 1000
    exact mul_le_mul_of_nonneg_right (by exact_mod_cast hmid)
      (pow_nonneg (by rw [Binomial.p]; norm_num) 1000)

/-- Witness for C9 at `k = 0`. -/
theorem binomial_symmetric_mode_witness :
    (0 : ℕ) ≤ 1000 ∧
    ((Binomial.probs Binomial.n Binomial.p).getD 0 0 =
        (Binomial.probs Binomial.n Binomial.p).getD (1000 - 0) 0 ∧
      (Binomial.probs Binomial.n Binomial.p).getD 0 0 ≤
        (Binomial.probs Binomial.n Binomial.p).getD 500 0) :=
  ⟨by decide, binomial_symmetric_mode 0 (by decide)⟩

/-- Claim C4: for every state of the interactive demonstrator and every `k`,
`take_samples(k)` appends exactly `k` new means to the history and changes
nothing else of the state (sample size and samples-per-click included); in
particular, after `sample(5)` from the empty initial state the history has
length 5. -/
theorem interactive_sample_appends (u : ℕ → ℚ) (k : ℕ)
    (s : CLT.InteractiveCLT) (pos : ℕ) :
    (∃ t : List ℚ, t.length = k ∧
      (CLT.take_samples u k s pos).1 =
        { s with sample_means := s.sample_means ++ t }) ∧
    ((CLT.take_samples u 5 CLT.init pos).1).sample_means.length = 5 := by
  refine ⟨CLT.take_samples_append u k s pos, ?_⟩
  obtain ⟨t, ht, hs⟩ := CLT.take_samples_append u 5 CLT.init pos
  rw [hs]
  simp [CLT.init, ht]

/-- Claim C5: for every state and every new sample size `n'`, the slider
handler `on_n_change` sets the current sample size to `n'` and clears the
history to length 0, regardless of the prior history; samples-per-click is
untouched. -/
theorem interactive_set_sample_size (s : CLT.InteractiveCLT) (n' : ℕ) :
    (CLT.on_n_change s n').sample_size = n' ∧
    (CLT.on_n_change s n').sample_means.length = 0 ∧
    (CLT.on_n_change s n').samples_per_click = s.samples_per_click :=
  ⟨rfl, rfl, rfl⟩

/-- Claim C6: the batch demonstrator's experiment loop for sample size `n`
and experiment count `E` produces a means list of length exactly `E`, and
the `i`-th collected mean is the arithmetic mean of the `i`-th block of `n`
uniform draws. -/
theorem clt_batch_means_length (u : ℕ → ℚ) (n E pos i : ℕ) (h : i < E) :
    (BatchCLT.sample_means u n E pos).length = E ∧
    (BatchCLT.sample_means u n E pos).getD i 0 =
      CLT.npMean (CLT.uniformDraw u (pos + i * n) n) :=
  ⟨BatchCLT.sample_means_length u n E pos, BatchCLT.sample_means_getD u n E i pos h⟩

/-- Witness for C6 at `u = fun j => 1/2`, `n = 2`, `E = 2`, `pos = 0`,
`i = 1`. -/
theorem clt_batch_means_length_witness :
    (1 : ℕ) < 2 ∧
    ((BatchCLT.sample_means (fun _ => 1/2) 2 2 0).length = 2 ∧
      (BatchCLT.sample_means (fun _ => 1/2) 2 2 0).getD 1 0 =
        CLT.npMean (CLT.uniformDraw (fun _ => 1/2) (0 + 1 * 2) 2)) :=
  ⟨by decide, clt_batch_means_length (fun _ => 1/2) 2 2 0 1 (by decide)⟩

/-- Claim C7: in both CLT demonstrators the theoretical overlay parameters
are `μ = (a + b) / 2` and `σ_n = ((b - a) / √12) / √n` with `a = 0` and
`b = 1`: the batch script's `uniform_mean` and `theoretical_std` match the
spec formulas, the interactive script computes the identical `σ_n`, and the
common value simplifies to `1 / √(12 n)`. -/
theorem clt_theoretical_params (n : ℕ) :
    BatchCLT.uniform_mean = (0 + 1) / 2 ∧
    BatchCLT.theoretical_std n = ((1 - 0) / Real.sqrt 12) / Real.sqrt n ∧
    CLT.theoretical_std n = BatchCLT.theoretical_std n ∧
    BatchCLT.theoretical_std n = 1 / Real.sqrt (12 * n) := by
  refine ⟨rfl, rfl, rfl, ?_⟩
  rw [BatchCLT.theoretical_std, BatchCLT.uniform_std, BatchCLT.a, BatchCLT.b]
  rw [show (1 : ℝ) - 0 = 1 by norm_num, div_div,
    ← Real.sqrt_mul (by norm_num : (0:ℝ) ≤ 12) (n : ℝ)]

/-- Claim C8: the reset handler clears the history to length 0, and resetting
twice yields exactly the same state as resetting once (idempotence). -/
theorem interactive_reset_idempotent (s : CLT.InteractiveCLT) :
    (CLT.on_reset_click s).sample_means.length = 0 ∧
    CLT.on_reset_click (CLT.on_reset_click s) = CLT.on_reset_click s :=
  ⟨rfl, rfl⟩

/-- Claim C10 (implicit invariant): starting from the initial state, after
any sequence of `sample k`, `reset` and `set_sample_size n'` events whose
slider values respect the slider's lower bound, every value stored in the
sample-mean history lies in the closed unit interval, provided every draw
of the uniform generator lies in the unit interval. -/
theorem interactive_history_in_unit_interval (u : ℕ → ℚ)
    (hu : ∀ i, 0 ≤ u i ∧ u i ≤ 1) (evs : List CLT.Event)
    (hevs : ∀ e ∈ evs, CLT.validEvent e = true) (pos : ℕ) :
    ∀ x ∈ ((CLT.run u (CLT.init, pos) evs).1).sample_means, 0 ≤ x ∧ x ≤ 1 :=
  (CLT.run_invariant u hu evs (CLT.init, pos) hevs
    (by simp [CLT.init]) (by simp [CLT.init])).2

/-- Witness for C10 with the constant generator `1/2`, the event sequence
`[sample 2, set_sample_size 3, sample 1]` and stream position 0. -/
theorem interactive_history_in_unit_interval_witness :
    (∀ i : ℕ, 0 ≤ (fun _ : ℕ => (1 : ℚ)/2) i ∧ (fun _ : ℕ => (1 : ℚ)/2) i ≤ 1) ∧
    (∀ e ∈ [CLT.Event.sample 2, CLT.Event.set_sample_size 3, CLT.Event.sample 1],
      CLT.validEvent e = true) ∧
    ∀ x ∈ ((CLT.run (fun _ : ℕ => (1 : ℚ)/2) (CLT.init, 0)
        [CLT.Event.sample 2, CLT.Event.set_sample_size 3,
          CLT.Event.sample 1]).1).sample_means, 0 ≤ x ∧ x ≤ 1 :=
  ⟨fun _ => by norm_num, by decide,
    interactive_history_in_unit_interval (fun _ => 1/2)
      (fun _ => by norm_num) _ (by decide) 0⟩
